import Mathlib

set_option maxRecDepth 8000

/-!
Verification of the Ozon unit-economics report analyzer.

The development shallowly embeds the core of the repository:
* `parseCurrency` (src/lib/parse.ts, lines 47-54): localized currency-string
  parsing;
* the header locator and the row aggregator of `parseReport`
  (src/lib/parse.ts, lines 56-231);
* the per-article metric enrichment `getEnrichedArticle` and the summary
  metrics of `ArticlesTable` (components/ArticlesTable.tsx);
* the dashboard derivation chain of `Home` (src/app/page.tsx, lines 117-201).

Numbers are embedded as exact rationals (`ℚ`); JavaScript's IEEE-754 doubles
are idealized to exact arithmetic except where a claim is specifically about
NaN/Infinity, for which a separate `JSNum` model keeps the double overflow
threshold explicit.
-/

/-! ## Currency token parser (src/lib/parse.ts, lines 47-54)

`parseCurrency` cleans the string with
`value.replace(/[^\d,\.-]/g, "").replace(",", ".")` and applies `parseFloat`;
`isNaN(number) ? 0 : number` maps a failed parse to 0.

`parseFloat` is modelled on the cleaned alphabet (digits, `-`, `.`, and any
comma left after the first): it scans the longest prefix of the form
`[-] digits [. digits]` or `[-] . digits` and returns its exact decimal
value, or nothing (JavaScript `NaN`) when no such prefix exists.  Leading
whitespace, a leading `+`, exponents and `Infinity` literals cannot survive
the cleaning step, so they are not modelled. -/

/-- A decimal literal recognized by the longest-prefix scan of `parseFloat`:
sign, integer digits, fractional digits. -/
structure NumLit where
  neg : Bool
  intDigits : List Char
  fracDigits : List Char
deriving DecidableEq

/-- Value of a digit string as a natural number (base 10). -/
def digitsToNat (ds : List Char) : Nat :=
  ds.foldl (fun a c => 10 * a + (c.toNat - 48)) 0

/-- Exact rational value of a recognized decimal literal. -/
def numLitVal (n : NumLit) : ℚ :=
  let mag : ℚ :=
    (digitsToNat n.intDigits : ℚ) +
      (digitsToNat n.fracDigits : ℚ) / (10 : ℚ) ^ n.fracDigits.length
  if n.neg then -mag else mag

/-- Longest-prefix decimal scan of `parseFloat` on a cleaned character list.
Returns `none` exactly when `parseFloat` would return `NaN`. -/
def scanLit (cs : List Char) : Option NumLit :=
  let p :=
    match cs with
    | '-' :: r => (true, r)
    | _ => (false, cs)
  let intDs := p.2.takeWhile Char.isDigit
  let rest := p.2.dropWhile Char.isDigit
  match intDs, rest with
  | [], '.' :: r =>
      let fracDs := r.takeWhile Char.isDigit
      if fracDs = [] then none else some ⟨p.1, [], fracDs⟩
  | [], _ => none
  | _ :: _, '.' :: r => some ⟨p.1, intDs, r.takeWhile Char.isDigit⟩
  | _ :: _, _ => some ⟨p.1, intDs, []⟩

/-- The character class kept by `value.replace(/[^\d,\.-]/g, "")`:
ASCII digits, comma, period, minus. -/
def keepChar (c : Char) : Bool :=
  c.isDigit || c = ',' || c = '.' || c = '-'

/-- `String.prototype.replace(",", ".")`: replace only the first comma. -/
def replaceFirstComma : List Char → List Char
  | [] => []
  | c :: cs => if c = ',' then '.' :: cs else c :: replaceFirstComma cs

/-- The cleaning pipeline of `parseCurrency`. -/
def cleanChars (s : String) : List Char :=
  replaceFirstComma (s.toList.filter keepChar)

/-- `parseCurrency` (src/lib/parse.ts, lines 47-54), in the exact-rational
idealization: empty input is 0, a failed parse (`NaN`) is 0, otherwise the
exact value of the recognized literal. -/
def parseCurrency (value : String) : ℚ :=
  if value = "" then 0
  else
    match scanLit (cleanChars value) with
    | none => 0
    | some n => numLitVal n

/-- Modelled from the spec's words (section 4.1): strip every character that
is not a digit, minus sign, comma, or period; replace the first remaining
comma with a period; parse as a floating-point number; return 0 when the
input is empty or the parse fails. -/
def parseCurrencySpec (value : String) : ℚ :=
  if value = "" then 0
  else ((scanLit (cleanChars value)).map numLitVal).getD 0

/-! ## Double-aware model of `parseCurrency` (for the finiteness claim)

An IEEE-754 double rounds an exact value `q` to `+∞` exactly when
`q ≥ (2^54 - 1) * 2^970` (the midpoint between the largest finite double
`(2^53 - 1) * 2^971` and `2^1024`, with ties-to-even sending the midpoint
up).  `JSNum` keeps finite values exact and tracks NaN and the infinities. -/

/-- A JavaScript number: NaN, an infinity, or a finite value (kept exact). -/
inductive JSNum where
  | nan : JSNum
  | posInf : JSNum
  | negInf : JSNum
  | fin : ℚ → JSNum
deriving DecidableEq

/-- The smallest magnitude that rounds to an IEEE-754 double infinity. -/
def DBL_OVERFLOW : ℚ := ((2 : ℚ) ^ 54 - 1) * 2 ^ 970

/-- Convert an exactly parsed literal to the double `parseFloat` returns,
keeping finite values exact but applying the overflow-to-infinity rule. -/
def jsNumOfLit (n : NumLit) : JSNum :=
  if DBL_OVERFLOW ≤ numLitVal n then JSNum.posInf
  else if numLitVal n ≤ -DBL_OVERFLOW then JSNum.negInf
  else JSNum.fin (numLitVal n)

/-- `parseCurrency` with double overflow made explicit: the `isNaN` guard
maps `NaN` to 0, but an infinity passes through untouched. -/
def parseCurrencyNum (value : String) : JSNum :=
  if value = "" then JSNum.fin 0
  else
    match scanLit (cleanChars value) with
    | none => JSNum.fin 0
    | some n => jsNumOfLit n

/-- The cleaned input parses to a literal whose magnitude reaches the double
overflow threshold. -/
def litOverflows (s : String) : Prop :=
  match scanLit (cleanChars s) with
  | some n => DBL_OVERFLOW ≤ |numLitVal n|
  | none => False

/-- A digit string whose value `10 ^ 309` exceeds the largest finite double. -/
def overflowInput : String := String.mk ('1' :: List.replicate 309 '0')

/-! ## Header locator (src/lib/parse.ts, lines 66-87)

The file text is split on `/\r?\n/`; the first 20 lines are scanned for a
line containing both marker substrings; otherwise the index falls back to 3
(if the file has more than 3 lines) or 0. -/

/-- Does `needle` occur at the start of `hay`? -/
def leadsWith : List Char → List Char → Bool
  | [], _ => true
  | _ :: _, [] => false
  | a :: as, b :: bs => a == b && leadsWith as bs

/-- Does `needle` occur anywhere inside `hay`?  Models
`String.prototype.includes`. -/
def hasSegment (needle : List Char) : List Char → Bool
  | [] => leadsWith needle []
  | c :: rest => leadsWith needle (c :: rest) || hasSegment needle rest

/-- `hay.includes(needle)` for strings. -/
def strContains (hay needle : String) : Bool :=
  hasSegment needle.toList hay.toList

/-- The revenue-column marker substring. -/
def headMarker1 : String := "Выручка"

/-- The discount-points-column marker substring. -/
def headMarker2 : String := "Баллы за скидки"

/-- A line is recognized as the header when it contains both markers. -/
def isHeaderLine (l : String) : Bool :=
  strContains l headMarker1 && strContains l headMarker2

/-- The scan loop `for (let i = 0; i < Math.min(lines.length, 20); i++)`:
`fuel` counts the remaining iterations, `i` is the current index. -/
def headerScan : List String → Nat → Nat → Option Nat
  | _, 0, _ => none
  | [], _ + 1, _ => none
  | l :: ls, fuel + 1, i =>
      if isHeaderLine l then some i else headerScan ls fuel (i + 1)

/-- The header locator of `parseReport` (src/lib/parse.ts, lines 70-84). -/
def findHeaderIdx (lines : List String) : Nat :=
  match headerScan lines 20 0 with
  | some i => i
  | none => if lines.length > 3 then 3 else 0

/-- Modelled from the spec's words (section 4.2): the index of the first
line among the first `min(20, number of lines)` lines containing both
markers; if none exists, index 3 when the file has at least 4 lines, else
index 0. -/
def headerIdxSpec (lines : List String) : Nat :=
  match (lines.take 20).findIdx? isHeaderLine with
  | some i => i
  | none => if 4 ≤ lines.length then 3 else 0

/-- `text.split(/\r?\n/)`: split on `\r\n` or bare `\n` (a lone `\r` stays
inside its line). -/
def splitLinesAux : List Char → List Char → List String
  | cur, [] => [String.mk cur.reverse]
  | cur, '\r' :: '\n' :: rest => String.mk cur.reverse :: splitLinesAux [] rest
  | cur, '\n' :: rest => String.mk cur.reverse :: splitLinesAux [] rest
  | cur, c :: rest => splitLinesAux (c :: cur) rest

/-- Split a file text into lines on any newline convention. -/
def splitLines (s : String) : List String :=
  splitLinesAux [] s.toList

/-! ## Row decoding and aggregation (src/lib/parse.ts, lines 89-220)

A `RawRow` is the mapping Papa Parse produces from header names to cell
strings, embedded as an association list (`row[key]` is `lookup`, an absent
key is `undefined`). -/

/-- One tabular row: column name to raw cell string. -/
def RawRow : Type := List (String × String)

/-- `const getVal = (key) => row[key] ? parseCurrency(row[key]) : 0`:
an absent (`undefined`) or empty (falsy) cell contributes 0. -/
def getVal (row : RawRow) (key : String) : ℚ :=
  match List.lookup key row with
  | some v => if v = "" then 0 else parseCurrency v
  | none => 0

/-- `row[key] || dflt`: a string column with a fallback for absent or empty
values. -/
def strField (row : RawRow) (key dflt : String) : String :=
  match List.lookup key row with
  | some v => if v = "" then dflt else v
  | none => dflt

/-- `row["Артикул"] || "Unknown"`: the product key of a row. -/
def rowKey (row : RawRow) : String := strField row "Артикул" "Unknown"

/-- `row["Наименование товара"] || "Unknown"`: the display name of a row. -/
def rowName (row : RawRow) : String := strField row "Наименование товара" "Unknown"

/-- The numeric fields decoded from one row (the per-row locals of the
aggregation loop, src/lib/parse.ts, lines 113-159). -/
structure LineItem where
  revenue : ℚ
  discountPoints : ℚ
  partnerPrograms : ℚ
  marketplaceCommission : ℚ
  orderedItems : ℚ
  deliveredItems : ℚ
  returnedItems : ℚ
  logisticsCost : ℚ
  acquiringCost : ℚ
  returnsCost : ℚ
  additionalServicesCost : ℚ
  promotionCost : ℚ
  totalCogs : ℚ
deriving DecidableEq

/-- Decode one row exactly as the loop body does: single-column reads, the
fixed cost-category groupings, and
`cogs = -(unitCost * (delivered - returned))`. -/
def decodeRow (row : RawRow) : LineItem :=
  { revenue := getVal row "Выручка"
    discountPoints := getVal row "Баллы за скидки"
    partnerPrograms := getVal row "Программы партнёров"
    marketplaceCommission := getVal row "Вознаграждение Ozon"
    orderedItems := getVal row "Заказано товаров, шт"
    deliveredItems := getVal row "Доставлено товаров, шт"
    returnedItems := getVal row "Возвращено товаров, шт"
    logisticsCost := getVal row "Обработка отправления" + getVal row "Логистика" +
      getVal row "Доставка до места выдачи" + getVal row "Стоимость размещения"
    acquiringCost := getVal row "Эквайринг"
    returnsCost := getVal row "Обработка возврата" + getVal row "Обратная логистика"
    additionalServicesCost := getVal row "Утилизация" + getVal row "Обработка ошибок продавца"
    promotionCost := getVal row "Оплата за клик" + getVal row "Оплата за заказ" +
      getVal row "Звёздные товары" + getVal row "Платный бренд"
    totalCogs := -(getVal row "Себестоимость" *
      (getVal row "Доставлено товаров, шт" - getVal row "Возвращено товаров, шт")) }

/-- One per-ProductKey ledger (interface `ArticleRow` of src/lib/parse.ts). -/
structure ArticleRow where
  sku : String
  name : String
  revenue : ℚ
  discountPoints : ℚ
  partnerPrograms : ℚ
  marketplaceCommission : ℚ
  orderedItems : ℚ
  deliveredItems : ℚ
  returnedItems : ℚ
  logisticsCost : ℚ
  acquiringCost : ℚ
  returnsCost : ℚ
  additionalServicesCost : ℚ
  promotionCost : ℚ
  totalCogs : ℚ
deriving DecidableEq

/-- The grand-total ledger plus the per-ProductKey collection (interface
`AnalysisResult` of src/lib/parse.ts).  The list order is the `Map`
insertion order: first occurrence of each key. -/
structure AnalysisResult where
  revenue : ℚ
  discountPoints : ℚ
  partnerPrograms : ℚ
  marketplaceCommission : ℚ
  orderedItems : ℚ
  deliveredItems : ℚ
  returnedItems : ℚ
  logisticsCost : ℚ
  acquiringCost : ℚ
  returnsCost : ℚ
  additionalServicesCost : ℚ
  promotionCost : ℚ
  totalCogs : ℚ
  articles : List ArticleRow
deriving DecidableEq

/-- The fresh all-zero ledger `articlesMap.set(sku, {...})` inserts when a
key is first seen; its `name` is the current row's name. -/
def zeroArticle (sku name : String) : ArticleRow :=
  { sku := sku, name := name, revenue := 0, discountPoints := 0,
    partnerPrograms := 0, marketplaceCommission := 0, orderedItems := 0,
    deliveredItems := 0, returnedItems := 0, logisticsCost := 0,
    acquiringCost := 0, returnsCost := 0, additionalServicesCost := 0,
    promotionCost := 0, totalCogs := 0 }

/-- Add one decoded row into an article ledger (src/lib/parse.ts,
lines 186-199); `sku` and `name` are left untouched. -/
def addLine (a : ArticleRow) (li : LineItem) : ArticleRow :=
  { a with
    revenue := a.revenue + li.revenue
    discountPoints := a.discountPoints + li.discountPoints
    partnerPrograms := a.partnerPrograms + li.partnerPrograms
    marketplaceCommission := a.marketplaceCommission + li.marketplaceCommission
    orderedItems := a.orderedItems + li.orderedItems
    deliveredItems := a.deliveredItems + li.deliveredItems
    returnedItems := a.returnedItems + li.returnedItems
    logisticsCost := a.logisticsCost + li.logisticsCost
    acquiringCost := a.acquiringCost + li.acquiringCost
    returnsCost := a.returnsCost + li.returnsCost
    additionalServicesCost := a.additionalServicesCost + li.additionalServicesCost
    promotionCost := a.promotionCost + li.promotionCost
    totalCogs := a.totalCogs + li.totalCogs }

/-- `articlesMap` update: add the row into the existing bucket for `sku`,
or append a fresh bucket at the end (JavaScript `Map` preserves insertion
order, and the name of an existing bucket is never overwritten). -/
def insertRow (l : List ArticleRow) (sku name : String) (li : LineItem) :
    List ArticleRow :=
  match l with
  | [] => [addLine (zeroArticle sku name) li]
  | a :: rest =>
      if a.sku = sku then addLine a li :: rest
      else a :: insertRow rest sku name li

/-- One iteration of `results.data.forEach`: add the decoded row into every
grand-total accumulator and into its key's bucket. -/
def stepRow (acc : AnalysisResult) (row : RawRow) : AnalysisResult :=
  let li := decodeRow row
  { revenue := acc.revenue + li.revenue
    discountPoints := acc.discountPoints + li.discountPoints
    partnerPrograms := acc.partnerPrograms + li.partnerPrograms
    marketplaceCommission := acc.marketplaceCommission + li.marketplaceCommission
    orderedItems := acc.orderedItems + li.orderedItems
    deliveredItems := acc.deliveredItems + li.deliveredItems
    returnedItems := acc.returnedItems + li.returnedItems
    logisticsCost := acc.logisticsCost + li.logisticsCost
    acquiringCost := acc.acquiringCost + li.acquiringCost
    returnsCost := acc.returnsCost + li.returnsCost
    additionalServicesCost := acc.additionalServicesCost + li.additionalServicesCost
    promotionCost := acc.promotionCost + li.promotionCost
    totalCogs := acc.totalCogs + li.totalCogs
    articles := insertRow acc.articles (rowKey row) (rowName row) li }

/-- The state before the loop: all accumulators 0, no buckets. -/
def emptyResult : AnalysisResult :=
  { revenue := 0, discountPoints := 0, partnerPrograms := 0,
    marketplaceCommission := 0, orderedItems := 0, deliveredItems := 0,
    returnedItems := 0, logisticsCost := 0, acquiringCost := 0,
    returnsCost := 0, additionalServicesCost := 0, promotionCost := 0,
    totalCogs := 0, articles := [] }

/-- The aggregator of `parseReport` (src/lib/parse.ts, lines 109-220). -/
def parseRows (rows : List RawRow) : AnalysisResult :=
  rows.foldl stepRow emptyResult

/-- The numeric value a field selector `g` takes on the first bucket whose
key is `k` (bucket keys are pairwise distinct by construction), or 0 when
no such bucket exists. -/
def keyVal : List ArticleRow → String → (ArticleRow → ℚ) → ℚ
  | [], _, _ => 0
  | a :: t, k, g => if a.sku = k then g a else keyVal t k g

/-- The numeric value a field selector `g` takes on the bucket for key `k`,
or 0 when the result has no such bucket. -/
def keyLedger (res : AnalysisResult) (k : String) (g : ArticleRow → ℚ) : ℚ :=
  keyVal res.articles k g

/-- The display name stored on the first bucket whose key is `k`. -/
def nameVal : List ArticleRow → String → Option String
  | [], _ => none
  | a :: t, k => if a.sku = k then some a.name else nameVal t k

/-- The display name stored on the bucket for key `k`, when present. -/
def keyName (res : AnalysisResult) (k : String) : Option String :=
  nameVal res.articles k

/-- The two ways `parseReport` terminates with an error value
(src/lib/parse.ts, lines 61-63 and 228). -/
inductive ParseError where
  | emptyFile : ParseError
  | readFailure : ParseError
deriving DecidableEq

/-- `lines.slice(headerLineIndex).join("\n")`: the delimited table handed
to the CSV parser. -/
def sliceFromHeader (text : String) : String :=
  String.intercalate "\n" ((splitLines text).drop (findHeaderIdx (splitLines text)))

/-- The control skeleton of `parseReport`: `none` models a failed byte-read
(`reader.onerror`), `some text` the decoded text.  `tab` stands for the
CSV tabulation (Papa Parse with `header: true`), which on string input
always completes; it is universally quantified in the theorems, so no
tabulation outcome can make the pipeline reject. -/
def parseReportModel (tab : String → List RawRow) (input : Option String) :
    Except ParseError AnalysisResult :=
  match input with
  | none => Except.error ParseError.readFailure
  | some text =>
      if text = "" then Except.error ParseError.emptyFile
      else Except.ok (parseRows (tab (sliceFromHeader text)))

/-- Does the promise reject? -/
def exceptFails : Except ParseError AnalysisResult → Bool
  | Except.error _ => true
  | Except.ok _ => false

/-! ## Metric enrichment (components/ArticlesTable.tsx) and the dashboard
derivation chain (src/app/page.tsx, lines 117-201) -/

/-- Flat subscription fee per reporting period. -/
def SUBSCRIPTION_COST : ℚ := 24990

/-- Cross-docking fee rate on total sales revenue. -/
def CROSS_DOCKING_RATE : ℚ := 0.015

/-- Income tax rate on positive pre-tax profit. -/
def INCOME_TAX_RATE : ℚ := 0.25

/-- `articles.reduce((sum, a) => sum + a.promotionCost, 0)`. -/
def totalPromotionOf (articles : List ArticleRow) : ℚ :=
  (articles.map (fun a => a.promotionCost)).sum

/-- `articles.reduce((sum, a) => sum + (a.revenue + a.discountPoints +
a.partnerPrograms), 0)`: the grand total sales revenue of the table. -/
def totalRevenueOf (articles : List ArticleRow) : ℚ :=
  (articles.map (fun a => a.revenue + a.discountPoints + a.partnerPrograms)).sum

/-- The derived per-article metrics (`getEnrichedArticle`'s extra fields). -/
structure Enriched where
  base : ArticleRow
  totalSalesRevenue : ℚ
  crossDocking : ℚ
  subscription : ℚ
  finalPromotionCost : ℚ
  totalCosts : ℚ
  totalCostsWithTax : ℚ
  profit : ℚ
  margin : ℚ
  incomeTax : ℚ
  avgPrice : ℚ
deriving DecidableEq

/-- `getEnrichedArticle` (components/ArticlesTable.tsx, lines 36-96),
closed over the table's `articles`, `distributeAds`, and the derived totals. -/
def getEnrichedArticle (articles : List ArticleRow) (distributeAds : Bool)
    (article : ArticleRow) : Enriched :=
  let totalRevenue := totalRevenueOf articles
  let totalSalesRevenue := article.revenue + article.discountPoints + article.partnerPrograms
  let crossDocking := -(totalSalesRevenue * CROSS_DOCKING_RATE)
  let revenueShare := if 0 < totalRevenue then totalSalesRevenue / totalRevenue else 0
  let subscription := -(SUBSCRIPTION_COST * revenueShare)
  let adCost :=
    if distributeAds then
      -(|totalPromotionOf articles| *
        (if 0 < totalRevenue then totalSalesRevenue / totalRevenue else 0))
    else article.promotionCost
  let finalPromotionCost := adCost + subscription
  let totalCosts :=
    article.marketplaceCommission + article.logisticsCost + article.acquiringCost +
      article.returnsCost + article.additionalServicesCost + article.totalCogs +
      finalPromotionCost + crossDocking
  let profitPreTax := totalSalesRevenue + totalCosts
  let incomeTax := if 0 < profitPreTax then -(profitPreTax * INCOME_TAX_RATE) else 0
  let profit := profitPreTax + incomeTax
  let margin := if totalSalesRevenue ≠ 0 then profit / totalSalesRevenue * 100 else 0
  let avgPrice := if 0 < article.deliveredItems then totalSalesRevenue / article.deliveredItems else 0
  { base := article, totalSalesRevenue := totalSalesRevenue,
    crossDocking := crossDocking, subscription := subscription,
    finalPromotionCost := finalPromotionCost, totalCosts := totalCosts,
    totalCostsWithTax := totalCosts + incomeTax, profit := profit,
    margin := margin, incomeTax := incomeTax, avgPrice := avgPrice }

/-- The per-article addend of `totalPreTaxCosts`
(components/ArticlesTable.tsx, lines 151-161). -/
def enrichedCostOf (e : Enriched) : ℚ :=
  e.base.marketplaceCommission + e.base.logisticsCost + e.base.acquiringCost +
    e.base.returnsCost + e.base.additionalServicesCost + e.base.totalCogs +
    e.finalPromotionCost + e.crossDocking

/-- The table's summary net profit (components/ArticlesTable.tsx,
lines 151-165): total revenue plus summed pre-tax costs, then the global
income tax on a positive pre-tax profit. -/
def tableTotalProfit (articles : List ArticleRow) (distributeAds : Bool) : ℚ :=
  let enriched := articles.map (getEnrichedArticle articles distributeAds)
  let totalRevenue := totalRevenueOf articles
  let totalPreTaxCosts := (enriched.map enrichedCostOf).sum
  let totalPreTaxProfit := totalRevenue + totalPreTaxCosts
  let globalIncomeTax :=
    if 0 < totalPreTaxProfit then -(totalPreTaxProfit * INCOME_TAX_RATE) else 0
  totalPreTaxProfit + globalIncomeTax

/-- The grand-total ledger whose fields are the sums of the given articles'
fields (the `AnalysisResult` the aggregator would pair with them). -/
def grandOf (articles : List ArticleRow) : AnalysisResult :=
  { revenue := (articles.map (fun a => a.revenue)).sum,
    discountPoints := (articles.map (fun a => a.discountPoints)).sum,
    partnerPrograms := (articles.map (fun a => a.partnerPrograms)).sum,
    marketplaceCommission := (articles.map (fun a => a.marketplaceCommission)).sum,
    orderedItems := (articles.map (fun a => a.orderedItems)).sum,
    deliveredItems := (articles.map (fun a => a.deliveredItems)).sum,
    returnedItems := (articles.map (fun a => a.returnedItems)).sum,
    logisticsCost := (articles.map (fun a => a.logisticsCost)).sum,
    acquiringCost := (articles.map (fun a => a.acquiringCost)).sum,
    returnsCost := (articles.map (fun a => a.returnsCost)).sum,
    additionalServicesCost := (articles.map (fun a => a.additionalServicesCost)).sum,
    promotionCost := (articles.map (fun a => a.promotionCost)).sum,
    totalCogs := (articles.map (fun a => a.totalCogs)).sum,
    articles := articles }

/-- The override map of the dashboard (`getValue` of src/app/page.tsx):
an override replaces the computed baseline. -/
def ovValue (ov : String → Option ℚ) (key : String) (base : ℚ) : ℚ :=
  match ov key with
  | some v => v
  | none => base

/-- The empty override map (`overrides = {}`). -/
def noOverrides : String → Option ℚ := fun _ => none

/-- The dashboard profit (src/app/page.tsx, lines 117-195): the derivation
chain from the grand-total ledger through `preTaxCosts`, `incomeTax` and
`totalCosts` to `profit = totalSalesRevenue + totalCosts`. -/
def dashProfit (ov : String → Option ℚ) (res : AnalysisResult) : ℚ :=
  let revenue := ovValue ov "revenue" res.revenue
  let discountPoints := ovValue ov "discountPoints" res.discountPoints
  let partnerPrograms := ovValue ov "partnerPrograms" res.partnerPrograms
  let totalSalesRevenue := ovValue ov "totalSalesRevenue" (revenue + discountPoints + partnerPrograms)
  let crossDockingCost := ovValue ov "crossDockingCost" (-(totalSalesRevenue * 0.015))
  let marketplaceCommission := ovValue ov "marketplaceCommission" res.marketplaceCommission
  let logisticsCost := ovValue ov "logisticsCost" res.logisticsCost
  let acquiringCost := ovValue ov "acquiringCost" res.acquiringCost
  let returnsCost := ovValue ov "returnsCost" res.returnsCost
  let promotionCost := ovValue ov "promotionCost" (res.promotionCost - 24990)
  let additionalServicesCost := ovValue ov "additionalServicesCost" res.additionalServicesCost
  let totalCogs := ovValue ov "totalCogs" res.totalCogs
  let preTaxCosts := ovValue ov "preTaxCosts"
    (marketplaceCommission + logisticsCost + acquiringCost + returnsCost +
      promotionCost + additionalServicesCost + crossDockingCost + totalCogs)
  let preTaxProfit := totalSalesRevenue + preTaxCosts
  let incomeTax := ovValue ov "incomeTax"
    (if 0 < preTaxProfit then -(preTaxProfit * 0.25) else 0)
  let totalCosts := ovValue ov "totalCosts" (preTaxCosts + incomeTax)
  totalSalesRevenue + totalCosts

/-- Two rows with the same product key but different display names, to test
which name the bucket keeps. -/
def rowNameA : RawRow := [("Артикул", "A"), ("Наименование товара", "X")]

/-- The later row with the same key and the other name. -/
def rowNameB : RawRow := [("Артикул", "A"), ("Наименование товара", "Y")]

/-- A concrete row realizing the cogs example of the spec:
`unitCost = 100`, `delivered = 10`, `returned = 2`. -/
def cogsRow : RawRow :=
  [("Себестоимость", "100"), ("Доставлено товаров, шт", "10"),
   ("Возвращено товаров, шт", "2")]

/-- A concrete single-key row with a revenue cell, for witnesses. -/
def demoRow : RawRow :=
  [("Артикул", "S1"), ("Наименование товара", "Demo"), ("Выручка", "100")]

/-- A one-product article with positive revenue and some promotion spend,
for witnesses of the enrichment claims. -/
def demoArticle : ArticleRow :=
  { zeroArticle "S1" "Demo" with revenue := 1000, promotionCost := -7 }

/-- Two analysis results agree on every numeric aggregate: all thirteen
grand-total fields, and, for every product key, all thirteen per-key ledger
fields (bucket order and display names may differ). -/
def sameAggregates (r1 r2 : AnalysisResult) : Prop :=
  (r1.revenue = r2.revenue ∧ r1.discountPoints = r2.discountPoints ∧
    r1.partnerPrograms = r2.partnerPrograms ∧
    r1.marketplaceCommission = r2.marketplaceCommission ∧
    r1.orderedItems = r2.orderedItems ∧ r1.deliveredItems = r2.deliveredItems ∧
    r1.returnedItems = r2.returnedItems ∧ r1.logisticsCost = r2.logisticsCost ∧
    r1.acquiringCost = r2.acquiringCost ∧ r1.returnsCost = r2.returnsCost ∧
    r1.additionalServicesCost = r2.additionalServicesCost ∧
    r1.promotionCost = r2.promotionCost ∧ r1.totalCogs = r2.totalCogs) ∧
  ∀ k : String,
    keyLedger r1 k (fun a => a.revenue) = keyLedger r2 k (fun a => a.revenue) ∧
    keyLedger r1 k (fun a => a.discountPoints) = keyLedger r2 k (fun a => a.discountPoints) ∧
    keyLedger r1 k (fun a => a.partnerPrograms) = keyLedger r2 k (fun a => a.partnerPrograms) ∧
    keyLedger r1 k (fun a => a.marketplaceCommission) = keyLedger r2 k (fun a => a.marketplaceCommission) ∧
    keyLedger r1 k (fun a => a.orderedItems) = keyLedger r2 k (fun a => a.orderedItems) ∧
    keyLedger r1 k (fun a => a.deliveredItems) = keyLedger r2 k (fun a => a.deliveredItems) ∧
    keyLedger r1 k (fun a => a.returnedItems) = keyLedger r2 k (fun a => a.returnedItems) ∧
    keyLedger r1 k (fun a => a.logisticsCost) = keyLedger r2 k (fun a => a.logisticsCost) ∧
    keyLedger r1 k (fun a => a.acquiringCost) = keyLedger r2 k (fun a => a.acquiringCost) ∧
    keyLedger r1 k (fun a => a.returnsCost) = keyLedger r2 k (fun a => a.returnsCost) ∧
    keyLedger r1 k (fun a => a.additionalServicesCost) = keyLedger r2 k (fun a => a.additionalServicesCost) ∧
    keyLedger r1 k (fun a => a.promotionCost) = keyLedger r2 k (fun a => a.promotionCost) ∧
    keyLedger r1 k (fun a => a.totalCogs) = keyLedger r2 k (fun a => a.totalCogs)

/-! ## Theorems for the currency parser -/

/-- C2: `parseCurrency` coincides, on every input string, with the spec's
pipeline (strip non-`[0-9,.-]` characters, replace the first comma with a
period, parse as a floating-point number, defaulting to 0 on empty input or
parse failure); in particular `parseCurrency "" = 0`,
`parseCurrency "abc" = 0`, and `parseCurrency "-1 234,56 ₽" = -1234.56`. -/
theorem parseCurrency_spec_and_examples :
    (∀ s : String, parseCurrency s = parseCurrencySpec s) ∧
      parseCurrency "" = 0 ∧ parseCurrency "abc" = 0 ∧
      parseCurrency "-1 234,56 ₽" = (-1234.56 : ℚ) := by
  refine ⟨fun s => ?_, rfl, ?_, ?_⟩
  · unfold parseCurrency parseCurrencySpec
    by_cases h : s = ""
    · simp [h]
    · simp only [h, if_false]
      cases scanLit (cleanChars s) <;> rfl
  · have h : scanLit (cleanChars "abc") = none := by decide
    unfold parseCurrency
    rw [if_neg (by decide), h]
  · have h : scanLit (cleanChars "-1 234,56 ₽") =
        some ⟨true, ['1', '2', '3', '4'], ['5', '6']⟩ := by decide
    unfold parseCurrency
    rw [if_neg (by decide), h]
    have h1 : digitsToNat ['1', '2', '3', '4'] = 1234 := by decide
    have h2 : digitsToNat ['5', '6'] = 56 := by decide
    unfold numLitVal
    simp only [h1, h2]
    norm_num

/-- C8 counterexample: on a 310-digit input the cleaned value `10 ^ 309`
overflows the double range, so `parseCurrency` returns positive infinity
rather than a finite number. -/
theorem parseCurrency_overflow_counterexample :
    parseCurrencyNum overflowInput = JSNum.posInf := by
  have h : scanLit (cleanChars overflowInput) =
      some ⟨false, '1' :: List.replicate 309 '0', []⟩ := by decide
  have hd : digitsToNat ('1' :: List.replicate 309 '0') = 10 ^ 309 := by decide
  have hval : numLitVal ⟨false, '1' :: List.replicate 309 '0', []⟩ =
      (10 : ℚ) ^ 309 := by
    show (digitsToNat ('1' :: List.replicate 309 '0') : ℚ) +
        (digitsToNat ([] : List Char) : ℚ) /
          (10 : ℚ) ^ List.length ([] : List Char) = (10 : ℚ) ^ 309
    rw [hd, show digitsToNat [] = 0 from rfl]
    push_cast
    ring
  unfold parseCurrencyNum
  rw [if_neg (by decide), h]
  show jsNumOfLit ⟨false, '1' :: List.replicate 309 '0', []⟩ = JSNum.posInf
  unfold jsNumOfLit
  rw [hval, if_pos]
  unfold DBL_OVERFLOW
  norm_num

/-- C8 amended: `parseCurrency` never returns NaN, and it returns a finite
number on every input whose cleaned value stays below the double overflow
threshold; only an overflowing cleaned value can produce an infinity. -/
theorem parseCurrency_finite_unless_overflow :
    ∀ s : String, parseCurrencyNum s ≠ JSNum.nan ∧
      (¬ litOverflows s → ∃ q : ℚ, parseCurrencyNum s = JSNum.fin q) := by
  intro s
  unfold parseCurrencyNum litOverflows
  by_cases hs : s = ""
  · simp [hs]
  · simp only [hs, if_false]
    cases hscan : scanLit (cleanChars s) with
    | none => exact ⟨by simp, fun _ => ⟨0, rfl⟩⟩
    | some n =>
        change jsNumOfLit n ≠ JSNum.nan ∧
          (¬ DBL_OVERFLOW ≤ |numLitVal n| → ∃ q, jsNumOfLit n = JSNum.fin q)
        constructor
        · unfold jsNumOfLit
          split
          · simp
          · split <;> simp
        · intro hno
          have hlt := abs_lt.mp (not_le.mp hno)
          unfold jsNumOfLit
          rw [if_neg (not_le.mpr hlt.2), if_neg (not_le.mpr (by linarith [hlt.1]))]
          exact ⟨numLitVal n, rfl⟩

/-- Closed witness for the amended C8 theorem at the concrete input `"5"`. -/
theorem parseCurrency_finite_witness :
    ¬ litOverflows "5" ∧ ∃ q : ℚ, parseCurrencyNum "5" = JSNum.fin q := by
  have hno : ¬ litOverflows "5" := by
    have h : scanLit (cleanChars "5") = some ⟨false, ['5'], []⟩ := by decide
    have h5 : digitsToNat ['5'] = 5 := by decide
    have hval : numLitVal ⟨false, ['5'], []⟩ = 5 := by
      simp [numLitVal, h5, show digitsToNat [] = 0 from rfl]
    unfold litOverflows
    rw [h]
    show ¬ DBL_OVERFLOW ≤ |numLitVal ⟨false, ['5'], []⟩|
    rw [hval, abs_of_nonneg (by norm_num)]
    unfold DBL_OVERFLOW
    norm_num
  exact ⟨hno, (parseCurrency_finite_unless_overflow "5").2 hno⟩

/-! ## Generic aggregation lemmas -/

/-- Inserting a decoded row into the bucket list adds its contribution `v`
to the summed field, for any field selector `g` that adds `v` under
`addLine` and is 0 on a fresh bucket. -/
theorem sum_insertRow (g : ArticleRow → ℚ) (v : ℚ) (li : LineItem)
    (sku name : String)
    (hadd : ∀ a, g (addLine a li) = g a + v)
    (hzero : ∀ s n, g (zeroArticle s n) = 0) :
    ∀ l : List ArticleRow,
      ((insertRow l sku name li).map g).sum = (l.map g).sum + v := by
  intro l
  induction l with
  | nil => simp [insertRow, hadd, hzero]
  | cons a t ih =>
      by_cases hsku : a.sku = sku
      · simp only [insertRow]
        rw [if_pos hsku]
        simp only [List.map_cons, List.sum_cons, hadd]
        ring
      · simp only [insertRow]
        rw [if_neg hsku]
        simp only [List.map_cons, List.sum_cons, ih]
        ring

/-- Along the aggregation fold, a grand-total accumulator `G` stays equal
to the sum of the matching article field `g`, provided each step adds the
same decoded contribution `d` to both. -/
theorem foldl_field_eq_sumArticles (G : AnalysisResult → ℚ)
    (g : ArticleRow → ℚ) (d : LineItem → ℚ)
    (hstep : ∀ acc row, G (stepRow acc row) = G acc + d (decodeRow row))
    (hadd : ∀ a li, g (addLine a li) = g a + d li)
    (hzero : ∀ s n, g (zeroArticle s n) = 0) :
    ∀ (rows : List RawRow) (acc : AnalysisResult),
      G acc = (acc.articles.map g).sum →
      G (rows.foldl stepRow acc) = ((rows.foldl stepRow acc).articles.map g).sum := by
  intro rows
  induction rows with
  | nil => intro acc h; simpa using h
  | cons r rest ih =>
      intro acc h
      simp only [List.foldl_cons]
      apply ih
      have hart : (stepRow acc r).articles =
          insertRow acc.articles (rowKey r) (rowName r) (decodeRow r) := rfl
      rw [hstep, hart,
        sum_insertRow g (d (decodeRow r)) (decodeRow r) _ _ (fun a => hadd a _) hzero,
        h]

/-- C1: for every sequence of raw rows and every numeric field, the
grand-total value in the `AnalysisResult` produced by the aggregator equals
the sum of that field over all per-ProductKey article ledgers in its
`articles` collection. -/
theorem parseReport_totals_eq_article_sums (rows : List RawRow) :
    (parseRows rows).revenue = ((parseRows rows).articles.map (fun a => a.revenue)).sum ∧
    (parseRows rows).discountPoints = ((parseRows rows).articles.map (fun a => a.discountPoints)).sum ∧
    (parseRows rows).partnerPrograms = ((parseRows rows).articles.map (fun a => a.partnerPrograms)).sum ∧
    (parseRows rows).marketplaceCommission = ((parseRows rows).articles.map (fun a => a.marketplaceCommission)).sum ∧
    (parseRows rows).orderedItems = ((parseRows rows).articles.map (fun a => a.orderedItems)).sum ∧
    (parseRows rows).deliveredItems = ((parseRows rows).articles.map (fun a => a.deliveredItems)).sum ∧
    (parseRows rows).returnedItems = ((parseRows rows).articles.map (fun a => a.returnedItems)).sum ∧
    (parseRows rows).logisticsCost = ((parseRows rows).articles.map (fun a => a.logisticsCost)).sum ∧
    (parseRows rows).acquiringCost = ((parseRows rows).articles.map (fun a => a.acquiringCost)).sum ∧
    (parseRows rows).returnsCost = ((parseRows rows).articles.map (fun a => a.returnsCost)).sum ∧
    (parseRows rows).additionalServicesCost = ((parseRows rows).articles.map (fun a => a.additionalServicesCost)).sum ∧
    (parseRows rows).promotionCost = ((parseRows rows).articles.map (fun a => a.promotionCost)).sum ∧
    (parseRows rows).totalCogs = ((parseRows rows).articles.map (fun a => a.totalCogs)).sum := by
  refine ⟨?_, ?_, ?_, ?_, ?_, ?_, ?_, ?_, ?_, ?_, ?_, ?_, ?_⟩
  · exact foldl_field_eq_sumArticles (fun r => r.revenue) (fun a => a.revenue)
      (fun li => li.revenue) (fun _ _ => rfl) (fun _ _ => rfl) (fun _ _ => rfl)
      rows emptyResult rfl
  · exact foldl_field_eq_sumArticles (fun r => r.discountPoints) (fun a => a.discountPoints)
      (fun li => li.discountPoints) (fun _ _ => rfl) (fun _ _ => rfl) (fun _ _ => rfl)
      rows emptyResult rfl
  · exact foldl_field_eq_sumArticles (fun r => r.partnerPrograms) (fun a => a.partnerPrograms)
      (fun li => li.partnerPrograms) (fun _ _ => rfl) (fun _ _ => rfl) (fun _ _ => rfl)
      rows emptyResult rfl
  · exact foldl_field_eq_sumArticles (fun r => r.marketplaceCommission) (fun a => a.marketplaceCommission)
      (fun li => li.marketplaceCommission) (fun _ _ => rfl) (fun _ _ => rfl) (fun _ _ => rfl)
      rows emptyResult rfl
  · exact foldl_field_eq_sumArticles (fun r => r.orderedItems) (fun a => a.orderedItems)
      (fun li => li.orderedItems) (fun _ _ => rfl) (fun _ _ => rfl) (fun _ _ => rfl)
      rows emptyResult rfl
  · exact foldl_field_eq_sumArticles (fun r => r.deliveredItems) (fun a => a.deliveredItems)
      (fun li => li.deliveredItems) (fun _ _ => rfl) (fun _ _ => rfl) (fun _ _ => rfl)
      rows emptyResult rfl
  · exact foldl_field_eq_sumArticles (fun r => r.returnedItems) (fun a => a.returnedItems)
      (fun li => li.returnedItems) (fun _ _ => rfl) (fun _ _ => rfl) (fun _ _ => rfl)
      rows emptyResult rfl
  · exact foldl_field_eq_sumArticles (fun r => r.logisticsCost) (fun a => a.logisticsCost)
      (fun li => li.logisticsCost) (fun _ _ => rfl) (fun _ _ => rfl) (fun _ _ => rfl)
      rows emptyResult rfl
  · exact foldl_field_eq_sumArticles (fun r => r.acquiringCost) (fun a => a.acquiringCost)
      (fun li => li.acquiringCost) (fun _ _ => rfl) (fun _ _ => rfl) (fun _ _ => rfl)
      rows emptyResult rfl
  · exact foldl_field_eq_sumArticles (fun r => r.returnsCost) (fun a => a.returnsCost)
      (fun li => li.returnsCost) (fun _ _ => rfl) (fun _ _ => rfl) (fun _ _ => rfl)
      rows emptyResult rfl
  · exact foldl_field_eq_sumArticles (fun r => r.additionalServicesCost) (fun a => a.additionalServicesCost)
      (fun li => li.additionalServicesCost) (fun _ _ => rfl) (fun _ _ => rfl) (fun _ _ => rfl)
      rows emptyResult rfl
  · exact foldl_field_eq_sumArticles (fun r => r.promotionCost) (fun a => a.promotionCost)
      (fun li => li.promotionCost) (fun _ _ => rfl) (fun _ _ => rfl) (fun _ _ => rfl)
      rows emptyResult rfl
  · exact foldl_field_eq_sumArticles (fun r => r.totalCogs) (fun a => a.totalCogs)
      (fun li => li.totalCogs) (fun _ _ => rfl) (fun _ _ => rfl) (fun _ _ => rfl)
      rows emptyResult rfl

/-- C4: every decoded row satisfies
`cogs = -(unitCost * (deliveredItems - returnedItems))`, and the concrete
row with `unitCost = 100`, `delivered = 10`, `returned = 2` yields exactly
-800. -/
theorem decodeRow_cogs_formula :
    (∀ row : RawRow, (decodeRow row).totalCogs =
      -(getVal row "Себестоимость" *
        (getVal row "Доставлено товаров, шт" - getVal row "Возвращено товаров, шт"))) ∧
    (decodeRow cogsRow).totalCogs = -800 := by
  refine ⟨fun _ => rfl, ?_⟩
  have e100 : parseCurrency "100" = 100 := by
    have h : scanLit (cleanChars "100") = some ⟨false, ['1', '0', '0'], []⟩ := by decide
    unfold parseCurrency
    rw [if_neg (by decide), h]
    simp [numLitVal, show digitsToNat ['1', '0', '0'] = 100 from by decide,
      show digitsToNat [] = 0 from rfl]
  have e10 : parseCurrency "10" = 10 := by
    have h : scanLit (cleanChars "10") = some ⟨false, ['1', '0'], []⟩ := by decide
    unfold parseCurrency
    rw [if_neg (by decide), h]
    simp [numLitVal, show digitsToNat ['1', '0'] = 10 from by decide,
      show digitsToNat [] = 0 from rfl]
  have e2 : parseCurrency "2" = 2 := by
    have h : scanLit (cleanChars "2") = some ⟨false, ['2'], []⟩ := by decide
    unfold parseCurrency
    rw [if_neg (by decide), h]
    simp [numLitVal, show digitsToNat ['2'] = 2 from by decide,
      show digitsToNat [] = 0 from rfl]
  show -(parseCurrency "100" * (parseCurrency "10" - parseCurrency "2")) = -800
  rw [e100, e10, e2]
  norm_num

/-! ## Theorems for the header locator -/

/-- The fueled scan loop computes the first matching index within its fuel
window, offset by the running index. -/
theorem headerScan_eq_findIdx (ls : List String) :
    ∀ n i, headerScan ls n i = ((ls.take n).findIdx? isHeaderLine).map (· + i) := by
  induction ls with
  | nil => intro n i; cases n <;> simp [headerScan]
  | cons l t ih =>
      intro n i
      cases n with
      | zero => simp [headerScan]
      | succ m =>
          cases hl : isHeaderLine l with
          | true =>
              simp [headerScan, hl, List.findIdx?_cons]
          | false =>
              have hstep : headerScan (l :: t) (m + 1) i = headerScan t m (i + 1) := by
                simp [headerScan, hl]
              have hcons : ((l :: t).take (m + 1)).findIdx? isHeaderLine =
                  ((t.take m).findIdx? isHeaderLine).map (· + 1) := by
                simp [List.take_succ_cons, List.findIdx?_cons, hl]
              rw [hstep, ih m (i + 1), hcons, Option.map_map]
              cases h : (t.take m).findIdx? isHeaderLine with
              | none => rfl
              | some j =>
                  show some (j + (i + 1)) = some (j + 1 + i)
                  congr 1
                  omega

/-- C3: the header locator returns the index of the first line among the
first `min(20, number of lines)` lines that contains both the revenue
marker and the discount-points marker; with no such line it returns 3 when
the file has at least 4 lines and 0 otherwise (in particular it is total:
the fallback never fails). -/
theorem findHeaderIdx_spec (lines : List String) :
    findHeaderIdx lines = headerIdxSpec lines := by
  unfold findHeaderIdx headerIdxSpec
  rw [headerScan_eq_findIdx]
  cases h : (lines.take 20).findIdx? isHeaderLine with
  | some i => simp
  | none =>
      show (if lines.length > 3 then 3 else 0) = if 4 ≤ lines.length then 3 else 0
      by_cases hlen : 4 ≤ lines.length
      · rw [if_pos (by omega), if_pos hlen]
      · rw [if_neg (by omega), if_neg hlen]

/-! ## Theorems for the error-propagation policy -/

/-- C5: the pipeline rejects exactly on a failed byte-read or empty text
content — for every tabulation outcome `tab` the aggregation succeeds — and
an absent or empty cell contributes 0 to every decoded field (missing
columns and malformed cells never raise: every branch is total and lands in
`Except.ok`). -/
theorem parseReport_error_policy :
    (∀ (tab : String → List RawRow) (input : Option String),
        exceptFails (parseReportModel tab input) = true ↔
          input = none ∨ input = some "") ∧
    (∀ (row : RawRow) (key : String),
        List.lookup key row = none ∨ List.lookup key row = some "" →
        getVal row key = 0) := by
  constructor
  · intro tab input
    cases input with
    | none => simp [parseReportModel, exceptFails]
    | some text =>
        by_cases ht : text = ""
        · simp [parseReportModel, exceptFails, ht]
        · simp [parseReportModel, exceptFails, ht]
  · intro row key h
    unfold getVal
    rcases h with h | h <;> rw [h] <;> simp

/-- Closed witness for the error-policy theorem: a key absent from a
concrete row decodes to 0. -/
theorem parseReport_error_policy_witness :
    (List.lookup "missing" demoRow = none ∨
      List.lookup "missing" demoRow = some "") ∧
    getVal demoRow "missing" = 0 :=
  ⟨Or.inl (by decide), parseReport_error_policy.2 demoRow "missing" (Or.inl (by decide))⟩

/-! ## Theorems for order-invariance of the aggregation -/

/-- A grand-total accumulator is the initial value plus the sum of the
decoded contributions of the rows, in row order. -/
theorem foldl_field_eq_rowSum (G : AnalysisResult → ℚ) (d : LineItem → ℚ)
    (hstep : ∀ acc row, G (stepRow acc row) = G acc + d (decodeRow row)) :
    ∀ (rows : List RawRow) (acc : AnalysisResult),
      G (rows.foldl stepRow acc) = G acc + (rows.map (fun r => d (decodeRow r))).sum := by
  intro rows
  induction rows with
  | nil => intro acc; simp
  | cons r rest ih =>
      intro acc
      simp only [List.foldl_cons, List.map_cons, List.sum_cons]
      rw [ih, hstep]
      ring

/-- Inserting a row moves a bucket field for key `k` by the decoded
contribution when the row carries key `k`, and leaves it unchanged
otherwise. -/
theorem keyVal_insertRow (g : ArticleRow → ℚ) (v : ℚ) (li : LineItem)
    (sku name k : String)
    (hadd : ∀ a, g (addLine a li) = g a + v)
    (hzero : ∀ s n, g (zeroArticle s n) = 0) :
    ∀ l : List ArticleRow,
      keyVal (insertRow l sku name li) k g =
        keyVal l k g + (if sku = k then v else 0) := by
  intro l
  induction l with
  | nil =>
      simp only [insertRow, keyVal]
      rw [show (addLine (zeroArticle sku name) li).sku = sku from rfl, hadd, hzero]
      by_cases hk : sku = k
      · rw [if_pos hk, if_pos hk]
        try ring
      · rw [if_neg hk, if_neg hk]
        try ring
  | cons a t ih =>
      by_cases has : a.sku = sku
      · simp only [insertRow]
        rw [if_pos has]
        simp only [keyVal]
        rw [show (addLine a li).sku = a.sku from rfl, hadd]
        by_cases hk : a.sku = k
        · rw [if_pos hk, if_pos hk, if_pos (has.symm.trans hk)]
          try ring
        · rw [if_neg hk, if_neg hk, if_neg (fun h => hk (has.trans h))]
          try ring
      · simp only [insertRow]
        rw [if_neg has]
        simp only [keyVal]
        by_cases hk : a.sku = k
        · rw [if_pos hk, if_pos hk, if_neg (fun h => has (hk.trans h.symm))]
          try ring
        · rw [if_neg hk, if_neg hk, ih]
          try ring

/-- Along the aggregation fold, the bucket field for key `k` accumulates
exactly the contributions of the rows carrying key `k`. -/
theorem keyVal_foldl (g : ArticleRow → ℚ) (d : LineItem → ℚ)
    (hadd : ∀ a li, g (addLine a li) = g a + d li)
    (hzero : ∀ s n, g (zeroArticle s n) = 0) :
    ∀ (rows : List RawRow) (acc : AnalysisResult) (k : String),
      keyVal ((rows.foldl stepRow acc).articles) k g =
        keyVal acc.articles k g +
          ((rows.filter (fun r => decide (rowKey r = k))).map
            (fun r => d (decodeRow r))).sum := by
  intro rows
  induction rows with
  | nil => intro acc k; simp
  | cons r rest ih =>
      intro acc k
      simp only [List.foldl_cons]
      rw [ih]
      have hart : (stepRow acc r).articles =
          insertRow acc.articles (rowKey r) (rowName r) (decodeRow r) := rfl
      rw [hart, keyVal_insertRow g (d (decodeRow r)) (decodeRow r) _ _ _
        (fun a => hadd a _) hzero]
      by_cases hk : rowKey r = k
      · simp [List.filter_cons, hk]
        try ring
      · simp [List.filter_cons, hk]
        try ring

/-- C9: aggregating any permutation of the rows yields the same grand-total
ledger and the same per-ProductKey ledger values for every numeric field. -/
theorem parseReport_perm_invariant (rows rows' : List RawRow)
    (hperm : rows.Perm rows') :
    sameAggregates (parseRows rows) (parseRows rows') := by
  have grand : ∀ (G : AnalysisResult → ℚ) (d : LineItem → ℚ),
      (∀ acc row, G (stepRow acc row) = G acc + d (decodeRow row)) →
      G (parseRows rows) = G (parseRows rows') := by
    intro G d hstep
    unfold parseRows
    rw [foldl_field_eq_rowSum G d hstep, foldl_field_eq_rowSum G d hstep]
    exact congrArg _ ((hperm.map _).sum_eq)
  have key : ∀ (g : ArticleRow → ℚ) (d : LineItem → ℚ),
      (∀ a li, g (addLine a li) = g a + d li) →
      (∀ s n, g (zeroArticle s n) = 0) →
      ∀ k, keyLedger (parseRows rows) k g = keyLedger (parseRows rows') k g := by
    intro g d hadd hzero k
    show keyVal (parseRows rows).articles k g = keyVal (parseRows rows').articles k g
    unfold parseRows
    rw [keyVal_foldl g d hadd hzero rows emptyResult k,
      keyVal_foldl g d hadd hzero rows' emptyResult k]
    exact congrArg _ (((hperm.filter _).map _).sum_eq)
  constructor
  · exact ⟨grand _ (fun li => li.revenue) (fun _ _ => rfl),
      grand _ (fun li => li.discountPoints) (fun _ _ => rfl),
      grand _ (fun li => li.partnerPrograms) (fun _ _ => rfl),
      grand _ (fun li => li.marketplaceCommission) (fun _ _ => rfl),
      grand _ (fun li => li.orderedItems) (fun _ _ => rfl),
      grand _ (fun li => li.deliveredItems) (fun _ _ => rfl),
      grand _ (fun li => li.returnedItems) (fun _ _ => rfl),
      grand _ (fun li => li.logisticsCost) (fun _ _ => rfl),
      grand _ (fun li => li.acquiringCost) (fun _ _ => rfl),
      grand _ (fun li => li.returnsCost) (fun _ _ => rfl),
      grand _ (fun li => li.additionalServicesCost) (fun _ _ => rfl),
      grand _ (fun li => li.promotionCost) (fun _ _ => rfl),
      grand _ (fun li => li.totalCogs) (fun _ _ => rfl)⟩
  · intro k
    exact ⟨key _ (fun li => li.revenue) (fun _ _ => rfl) (fun _ _ => rfl) k,
      key _ (fun li => li.discountPoints) (fun _ _ => rfl) (fun _ _ => rfl) k,
      key _ (fun li => li.partnerPrograms) (fun _ _ => rfl) (fun _ _ => rfl) k,
      key _ (fun li => li.marketplaceCommission) (fun _ _ => rfl) (fun _ _ => rfl) k,
      key _ (fun li => li.orderedItems) (fun _ _ => rfl) (fun _ _ => rfl) k,
      key _ (fun li => li.deliveredItems) (fun _ _ => rfl) (fun _ _ => rfl) k,
      key _ (fun li => li.returnedItems) (fun _ _ => rfl) (fun _ _ => rfl) k,
      key _ (fun li => li.logisticsCost) (fun _ _ => rfl) (fun _ _ => rfl) k,
      key _ (fun li => li.acquiringCost) (fun _ _ => rfl) (fun _ _ => rfl) k,
      key _ (fun li => li.returnsCost) (fun _ _ => rfl) (fun _ _ => rfl) k,
      key _ (fun li => li.additionalServicesCost) (fun _ _ => rfl) (fun _ _ => rfl) k,
      key _ (fun li => li.promotionCost) (fun _ _ => rfl) (fun _ _ => rfl) k,
      key _ (fun li => li.totalCogs) (fun _ _ => rfl) (fun _ _ => rfl) k⟩

/-- Closed witness for the permutation invariance at a concrete two-row
swap. -/
theorem parseReport_perm_invariant_witness :
    ([rowNameA, demoRow].Perm [demoRow, rowNameA]) ∧
      sameAggregates (parseRows [rowNameA, demoRow]) (parseRows [demoRow, rowNameA]) :=
  ⟨List.Perm.swap demoRow rowNameA [],
    parseReport_perm_invariant [rowNameA, demoRow] [demoRow, rowNameA]
      (List.Perm.swap demoRow rowNameA [])⟩

/-! ## Theorems for the retained display name -/

/-- Inserting a row never overwrites an existing bucket's display name: the
name after insertion is the old one when the key was already present, and
the inserted row's name only when the key is new. -/
theorem nameVal_insertRow (sku name : String) (li : LineItem) (k : String) :
    ∀ l, nameVal (insertRow l sku name li) k =
      match nameVal l k with
      | some n => some n
      | none => if sku = k then some name else none := by
  intro l
  induction l with
  | nil => rfl
  | cons a t ih =>
      by_cases has : a.sku = sku
      · simp only [insertRow]
        rw [if_pos has]
        simp only [nameVal]
        rw [show (addLine a li).sku = a.sku from rfl,
          show (addLine a li).name = a.name from rfl]
        by_cases hk : a.sku = k
        · rw [if_pos hk]
          try rfl
        · rw [if_neg hk, if_neg (fun h => hk (has.trans h))]
          cases nameVal t k <;> rfl
      · simp only [insertRow]
        rw [if_neg has]
        simp only [nameVal]
        by_cases hk : a.sku = k
        · rw [if_pos hk, if_pos hk]
          try rfl
        · rw [if_neg hk, if_neg hk, ih]

/-- Along the aggregation fold, the display name of the bucket for key `k`
is the initial one when already present, and otherwise the name of the
first processed row carrying key `k`. -/
theorem nameVal_foldl :
    ∀ (rows : List RawRow) (acc : AnalysisResult) (k : String),
      nameVal ((rows.foldl stepRow acc).articles) k =
        match nameVal acc.articles k with
        | some n => some n
        | none =>
            (rows.find? (fun r => decide (rowKey r = k))).map (fun r => rowName r) := by
  intro rows
  induction rows with
  | nil =>
      intro acc k
      cases h : nameVal acc.articles k <;> simp [h]
  | cons r rest ih =>
      intro acc k
      simp only [List.foldl_cons]
      rw [ih]
      have hart : (stepRow acc r).articles =
          insertRow acc.articles (rowKey r) (rowName r) (decodeRow r) := rfl
      rw [hart, nameVal_insertRow]
      cases h : nameVal acc.articles k with
      | some n => rfl
      | none =>
          by_cases hk : rowKey r = k
          · simp [hk]
          · simp [hk]

/-- C10 counterexample: two rows share the key `"A"` with names `"X"` then
`"Y"`; the stored display name is the first-seen `"X"`, not the last-seen
`"Y"` the claim requires. -/
theorem article_name_counterexample :
    keyName (parseRows [rowNameA, rowNameB]) "A" = some "X" ∧ "X" ≠ "Y" := by
  constructor
  · rfl
  · decide

/-- C10 amended: the display name stored in a ProductKey's ledger is the
name carried by the first-seen row with that key. -/
theorem article_name_first_seen (rows : List RawRow) (k : String) :
    keyName (parseRows rows) k =
      (rows.find? (fun r => decide (rowKey r = k))).map (fun r => rowName r) := by
  show nameVal (parseRows rows).articles k = _
  unfold parseRows
  rw [nameVal_foldl]
  rfl

/-! ## Theorems for the metric enrichment -/

/-- C6 counterexample: for a single product with zero revenue the revenue
share is 0, not 1, so the subscription allocation is 0 and
`finalPromotionCost` is not `promotionCost - 24990`. -/
theorem single_product_subscription_counterexample :
    (getEnrichedArticle [zeroArticle "S" "N"] false (zeroArticle "S" "N")).finalPromotionCost ≠
      (zeroArticle "S" "N").promotionCost + (-24990 : ℚ) := by
  have hfp : (getEnrichedArticle [zeroArticle "S" "N"] false
      (zeroArticle "S" "N")).finalPromotionCost = 0 := by
    show (zeroArticle "S" "N").promotionCost +
        -(SUBSCRIPTION_COST *
          (if 0 < totalRevenueOf [zeroArticle "S" "N"] then
            ((zeroArticle "S" "N").revenue + (zeroArticle "S" "N").discountPoints +
              (zeroArticle "S" "N").partnerPrograms) / totalRevenueOf [zeroArticle "S" "N"]
          else 0)) = 0
    rw [if_neg (by norm_num [totalRevenueOf, zeroArticle])]
    norm_num [zeroArticle]
  rw [hfp, show (zeroArticle "S" "N").promotionCost = 0 from rfl]
  norm_num

/-- C6 amended: for a report whose articles collection contains exactly one
product with positive total sales revenue, with the distribute-ads flag
false, that product's `finalPromotionCost` equals its own `promotionCost`
plus the full subscription allocation of -24990 (the sole product's revenue
share is 1). -/
theorem single_product_subscription (a : ArticleRow)
    (h : 0 < a.revenue + a.discountPoints + a.partnerPrograms) :
    (getEnrichedArticle [a] false a).finalPromotionCost =
      a.promotionCost + (-24990 : ℚ) := by
  have htr : totalRevenueOf [a] = a.revenue + a.discountPoints + a.partnerPrograms := by
    simp [totalRevenueOf]
  have hproj : (getEnrichedArticle [a] false a).finalPromotionCost =
      a.promotionCost +
        -(SUBSCRIPTION_COST *
          (if 0 < totalRevenueOf [a] then
            (a.revenue + a.discountPoints + a.partnerPrograms) / totalRevenueOf [a]
          else 0)) := rfl
  rw [hproj, htr, if_pos h, div_self (ne_of_gt h)]
  norm_num [SUBSCRIPTION_COST]

/-- Closed witness for the amended single-product subscription theorem at a
concrete article with revenue 1000 and promotion spend -7. -/
theorem single_product_subscription_witness :
    (0 < demoArticle.revenue + demoArticle.discountPoints + demoArticle.partnerPrograms) ∧
      (getEnrichedArticle [demoArticle] false demoArticle).finalPromotionCost =
        demoArticle.promotionCost + (-24990 : ℚ) := by
  have h : 0 < demoArticle.revenue + demoArticle.discountPoints + demoArticle.partnerPrograms := by
    show (0 : ℚ) < 1000 + 0 + 0
    norm_num
  exact ⟨h, single_product_subscription demoArticle h⟩

/-! ## Theorems for the two derivation chains (dashboard vs. table) -/

/-- Sums of mapped pointwise additions split. -/
theorem lsum_add {α : Type} (l : List α) (f g : α → ℚ) :
    (l.map fun x => f x + g x).sum = (l.map f).sum + (l.map g).sum := by
  induction l with
  | nil => simp
  | cons a t ih =>
      simp only [List.map_cons, List.sum_cons, ih]
      ring

/-- Sums of mapped pointwise negations pull out. -/
theorem lsum_neg {α : Type} (l : List α) (f : α → ℚ) :
    (l.map fun x => -(f x)).sum = -((l.map f).sum) := by
  induction l with
  | nil => simp
  | cons a t ih =>
      simp only [List.map_cons, List.sum_cons, ih]
      ring

/-- Sums of mapped right-scalings pull out. -/
theorem lsum_mul {α : Type} (l : List α) (f : α → ℚ) (c : ℚ) :
    (l.map fun x => f x * c).sum = (l.map f).sum * c := by
  induction l with
  | nil => simp
  | cons a t ih =>
      simp only [List.map_cons, List.sum_cons, ih]
      ring

/-- Sums of mapped left-scalings pull out. -/
theorem lsum_const_mul {α : Type} (l : List α) (f : α → ℚ) (c : ℚ) :
    (l.map fun x => c * f x).sum = c * (l.map f).sum := by
  induction l with
  | nil => simp
  | cons a t ih =>
      simp only [List.map_cons, List.sum_cons, ih]
      ring

/-- Sums of mapped divisions by a constant pull out. -/
theorem lsum_div {α : Type} (l : List α) (f : α → ℚ) (c : ℚ) :
    (l.map fun x => f x / c).sum = (l.map f).sum / c := by
  simpa [div_eq_mul_inv] using lsum_mul l f c⁻¹

/-- C7: for any articles list with positive grand-total sales revenue, with
the distribute-ads flag false and exact arithmetic, the table's summary net
profit equals the profit the dashboard derives (with no overrides) from the
grand-total ledger of the same articles: the two independent derivation
chains compute the same result. -/
theorem table_profit_eq_dashboard (articles : List ArticleRow)
    (h : 0 < totalRevenueOf articles) :
    tableTotalProfit articles false = dashProfit noOverrides (grandOf articles) := by
  have hTRne : totalRevenueOf articles ≠ 0 := ne_of_gt h
  have hpt : ∀ a ∈ articles,
      (enrichedCostOf ∘ getEnrichedArticle articles false) a =
        a.marketplaceCommission + a.logisticsCost + a.acquiringCost + a.returnsCost +
          a.additionalServicesCost + a.totalCogs +
          (a.promotionCost +
            -(SUBSCRIPTION_COST *
              ((a.revenue + a.discountPoints + a.partnerPrograms) / totalRevenueOf articles))) +
          -((a.revenue + a.discountPoints + a.partnerPrograms) * CROSS_DOCKING_RATE) := by
    intro a _
    rw [show (enrichedCostOf ∘ getEnrichedArticle articles false) a =
        a.marketplaceCommission + a.logisticsCost + a.acquiringCost + a.returnsCost +
          a.additionalServicesCost + a.totalCogs +
          (a.promotionCost +
            -(SUBSCRIPTION_COST *
              (if 0 < totalRevenueOf articles then
                (a.revenue + a.discountPoints + a.partnerPrograms) / totalRevenueOf articles
              else 0))) +
          -((a.revenue + a.discountPoints + a.partnerPrograms) * CROSS_DOCKING_RATE) from rfl,
      if_pos h]
  have hC : ((articles.map (getEnrichedArticle articles false)).map enrichedCostOf).sum =
      (articles.map fun a => a.marketplaceCommission).sum +
        (articles.map fun a => a.logisticsCost).sum +
        (articles.map fun a => a.acquiringCost).sum +
        (articles.map fun a => a.returnsCost).sum +
        (articles.map fun a => a.additionalServicesCost).sum +
        (articles.map fun a => a.totalCogs).sum +
        ((articles.map fun a => a.promotionCost).sum +
          -(SUBSCRIPTION_COST *
            (((articles.map fun a => a.revenue).sum +
                (articles.map fun a => a.discountPoints).sum +
                (articles.map fun a => a.partnerPrograms).sum) / totalRevenueOf articles))) +
        -(((articles.map fun a => a.revenue).sum +
            (articles.map fun a => a.discountPoints).sum +
            (articles.map fun a => a.partnerPrograms).sum) * CROSS_DOCKING_RATE) := by
    rw [List.map_map, List.map_congr_left hpt]
    simp only [lsum_add, lsum_neg, lsum_mul, lsum_const_mul, lsum_div]
  have hTR : totalRevenueOf articles =
      (articles.map fun a => a.revenue).sum + (articles.map fun a => a.discountPoints).sum +
        (articles.map fun a => a.partnerPrograms).sum := by
    unfold totalRevenueOf
    simp only [lsum_add]
  have hshare : ((articles.map fun a => a.revenue).sum +
      (articles.map fun a => a.discountPoints).sum +
      (articles.map fun a => a.partnerPrograms).sum) / totalRevenueOf articles = 1 := by
    rw [← hTR, div_self hTRne]
  have htable : tableTotalProfit articles false =
      totalRevenueOf articles +
          ((articles.map (getEnrichedArticle articles false)).map enrichedCostOf).sum +
        (if 0 < totalRevenueOf articles +
            ((articles.map (getEnrichedArticle articles false)).map enrichedCostOf).sum then
          -((totalRevenueOf articles +
              ((articles.map (getEnrichedArticle articles false)).map enrichedCostOf).sum) *
            INCOME_TAX_RATE)
        else 0) := rfl
  have hdash : dashProfit noOverrides (grandOf articles) =
      ((articles.map fun a => a.revenue).sum + (articles.map fun a => a.discountPoints).sum +
          (articles.map fun a => a.partnerPrograms).sum) +
        (((articles.map fun a => a.marketplaceCommission).sum +
            (articles.map fun a => a.logisticsCost).sum +
            (articles.map fun a => a.acquiringCost).sum +
            (articles.map fun a => a.returnsCost).sum +
            ((articles.map fun a => a.promotionCost).sum - 24990) +
            (articles.map fun a => a.additionalServicesCost).sum +
            (-(((articles.map fun a => a.revenue).sum +
                (articles.map fun a => a.discountPoints).sum +
                (articles.map fun a => a.partnerPrograms).sum) * 0.015)) +
            (articles.map fun a => a.totalCogs).sum) +
          (if 0 < ((articles.map fun a => a.revenue).sum +
                (articles.map fun a => a.discountPoints).sum +
                (articles.map fun a => a.partnerPrograms).sum) +
              ((articles.map fun a => a.marketplaceCommission).sum +
                (articles.map fun a => a.logisticsCost).sum +
                (articles.map fun a => a.acquiringCost).sum +
                (articles.map fun a => a.returnsCost).sum +
                ((articles.map fun a => a.promotionCost).sum - 24990) +
                (articles.map fun a => a.additionalServicesCost).sum +
                (-(((articles.map fun a => a.revenue).sum +
                    (articles.map fun a => a.discountPoints).sum +
                    (articles.map fun a => a.partnerPrograms).sum) * 0.015)) +
                (articles.map fun a => a.totalCogs).sum) then
            -((((articles.map fun a => a.revenue).sum +
                  (articles.map fun a => a.discountPoints).sum +
                  (articles.map fun a => a.partnerPrograms).sum) +
                ((articles.map fun a => a.marketplaceCommission).sum +
                  (articles.map fun a => a.logisticsCost).sum +
                  (articles.map fun a => a.acquiringCost).sum +
                  (articles.map fun a => a.returnsCost).sum +
                  ((articles.map fun a => a.promotionCost).sum - 24990) +
                  (articles.map fun a => a.additionalServicesCost).sum +
                  (-(((articles.map fun a => a.revenue).sum +
                      (articles.map fun a => a.discountPoints).sum +
                      (articles.map fun a => a.partnerPrograms).sum) * 0.015)) +
                  (articles.map fun a => a.totalCogs).sum)) * 0.25)
          else 0)) := rfl
  rw [htable, hdash, hC, hshare, hTR]
  simp only [SUBSCRIPTION_COST, CROSS_DOCKING_RATE, INCOME_TAX_RATE, mul_one]
  have key : ∀ A C P : ℚ, A + C = A + P →
      A + C + (if 0 < A + C then -((A + C) * (0.25 : ℚ)) else 0) =
        A + (P + (if 0 < A + P then -((A + P) * (0.25 : ℚ)) else 0)) := by
    intro A C P hcp
    rw [hcp]
    ring
  apply key
  ring

/-- Closed witness for the chain equivalence at a concrete one-product
articles list. -/
theorem table_profit_eq_dashboard_witness :
    (0 < totalRevenueOf [demoArticle]) ∧
      tableTotalProfit [demoArticle] false =
        dashProfit noOverrides (grandOf [demoArticle]) := by
  have h : 0 < totalRevenueOf [demoArticle] := by
    show (0 : ℚ) < 1000 + 0 + 0 + 0
    norm_num
  exact ⟨h, table_profit_eq_dashboard [demoArticle] h⟩
